import Mathlib

/-!
Shallow embedding of `src/contracts/contracts/boxmeout/src/treasury.rs`
(the BOXMEOUT_STELLA Treasury contract) and proofs about its behavior.

Modelling conventions:
* Soroban `Address` values are modelled as natural numbers; `Symbol` keys and
  fee categories are modelled as `String`s with the exact constants of the
  source file.
* Rust machine integers are modelled as unbounded `Nat`/`Int` with explicit
  wrap-around where the machine width matters: `u32` additions reduce
  `% 2^32` and `i128` arithmetic wraps two's-complement via `wrap128`
  (release-mode Rust semantics; truncating division is `Int.tdiv`, matching
  Rust's `/` on `i128`).
* A contract panic (validation failure, missing storage entry, failed token
  transfer) aborts the whole invocation; the Soroban host then rolls back
  every storage write and sub-call of the invocation.  An invocation is
  therefore modelled as a function producing an `Outcome`: either `.ok` with
  the new world and the trace of performed actions, or `.err` with the panic
  reason and the trace of actions performed before the abort (all of which
  the host reverts, so the committed state on `.err` is the original one —
  see `execCall`).
* The external USDC asset ledger is the collaborator token contract: a
  balance map on which `transfer(from, to, amount)` fails exactly when the
  amount is negative or exceeds the sender's balance, and otherwise moves
  `amount` from sender to receiver.
* `require_auth` is modelled by an authorization oracle `auth : Address →
  Bool` saying whose authorization the current invocation carries.
-/

/-- Addresses of the Soroban environment, modelled as naturals. -/
abbrev Address := Nat

/-- Storage key constants, exactly as in `treasury.rs`. -/
def ADMIN_KEY : String := "admin"

def USDC_KEY : String := "usdc"

def FACTORY_KEY : String := "factory"

def PLATFORM_FEES_KEY : String := "platform_fees"

def LEADERBOARD_FEES_KEY : String := "leaderboard_fees"

def CREATOR_FEES_KEY : String := "creator_fees"

/-- Reasons an invocation of the Treasury contract can panic/abort. -/
inductive Err where
  /-- The `require_auth` check failed for the required identity. -/
  | authFailed
  /-- The `expect("Admin not set")` lookup failed. -/
  | adminNotSet
  /-- The `expect("USDC token not set")` lookup failed. -/
  | usdcNotSet
  /-- The `panic!("Fee amount must be positive")` abort. -/
  | invalidAmount
  /-- The `panic!("Invalid fee category")` abort. -/
  | invalidCategory
  /-- The `panic!("Total shares must equal 10000 bps (100%)")` abort. -/
  | invalidShareTotal
  /-- the token contract rejected a transfer (insufficient balance). -/
  | insufficientBalance
deriving DecidableEq, Repr

/-- Events published by the Treasury contract. -/
inductive Event where
  | treasuryInitialized (admin usdc factory : Address)
  | feeDeposited (amount : Int)
  | leaderboardDistributed (total_fees : Int) (count : Nat)
deriving DecidableEq, Repr

/-- Observable actions of an invocation: token-ledger transfers, writes of the
i128 fee-pool storage slots, and published events, in execution order. -/
inductive Act where
  | transfer (src dst : Address) (amount : Int)
  | setPool (key : String) (value : Int)
  | emit (e : Event)
deriving DecidableEq, Repr

/-- The Treasury's persistent storage: each key is either absent or holds a
value.  Pool slots hold `i128` values, the other slots hold addresses. -/
structure TreasuryState where
  admin : Option Address
  usdc : Option Address
  factory : Option Address
  platform_fees : Option Int
  leaderboard_fees : Option Int
  creator_fees : Option Int
deriving DecidableEq, Repr

/-- The world an invocation runs against: the Treasury's storage plus the
external USDC token ledger's balance map. -/
structure World where
  store : TreasuryState
  bal : Address → Int

/-- Result of one invocation: commit with a new world and the action trace,
or abort with the panic reason and the trace of actions performed before the
abort (the host reverts all of them). -/
inductive Outcome where
  | ok (w : World) (tr : List Act)
  | err (e : Err) (tr : List Act)

/-- Two's-complement wrap-around of `i128` arithmetic. -/
def wrap128 (x : Int) : Int := (x + 2 ^ 127) % 2 ^ 128 - 2 ^ 127

/-- The collaborator token contract's `transfer` panics exactly when the
amount is negative or exceeds the sender's balance (the panic propagates and
aborts the whole Treasury invocation). -/
def xferFails (b : Address → Int) (src : Address) (amount : Int) : Prop :=
  amount < 0 ∨ b src < amount

instance (b : Address → Int) (src : Address) (amount : Int) :
    Decidable (xferFails b src amount) := by
  unfold xferFails
  infer_instance

/-- Balance map after the token contract moves `amount` from `src` to
`dst`. -/
def xferBal (b : Address → Int) (src dst : Address) (amount : Int) :
    Address → Int :=
  fun a => b a + (if a = dst then amount else 0) - (if a = src then amount else 0)

/-- Read one of the three i128 pool slots by its storage key. -/
def getPool (s : TreasuryState) (key : String) : Option Int :=
  if key = PLATFORM_FEES_KEY then s.platform_fees
  else if key = LEADERBOARD_FEES_KEY then s.leaderboard_fees
  else if key = CREATOR_FEES_KEY then s.creator_fees
  else none

/-- Write one of the three i128 pool slots by its storage key. -/
def setPoolStore (s : TreasuryState) (key : String) (v : Int) : TreasuryState :=
  if key = PLATFORM_FEES_KEY then { s with platform_fees := some v }
  else if key = LEADERBOARD_FEES_KEY then { s with leaderboard_fees := some v }
  else if key = CREATOR_FEES_KEY then { s with creator_fees := some v }
  else s

/-- Rust `Treasury::get_platform_fees`: read of the pool, `unwrap_or(0)`. -/
def get_platform_fees (w : World) : Int := w.store.platform_fees.getD 0

/-- Rust `Treasury::get_leaderboard_fees`: read of the pool, `unwrap_or(0)`. -/
def get_leaderboard_fees (w : World) : Int := w.store.leaderboard_fees.getD 0

/-- Rust `Treasury::get_creator_fees`: read of the pool, `unwrap_or(0)`. -/
def get_creator_fees (w : World) : Int := w.store.creator_fees.getD 0

/-- Rust `Treasury::initialize(env, admin, usdc_contract, factory)`: requires
`admin.require_auth()`, then overwrites admin / usdc / factory and sets all
three pools to `0`, then publishes the initialization event. -/
def initializeTreasury (auth : Address → Bool) (w : World)
    (admin usdc_contract factory : Address) : Outcome :=
  if auth admin then
    .ok { w with store :=
            { admin := some admin
              usdc := some usdc_contract
              factory := some factory
              platform_fees := some 0
              leaderboard_fees := some 0
              creator_fees := some 0 } }
      [.setPool PLATFORM_FEES_KEY 0, .setPool LEADERBOARD_FEES_KEY 0,
       .setPool CREATOR_FEES_KEY 0,
       .emit (.treasuryInitialized admin usdc_contract factory)]
  else .err .authFailed []

/-- The `if/else if` chain of `deposit_fees` routing a category symbol to a
pool storage key (`None` models the `panic!("Invalid fee category")` arm). -/
def categoryKey (fee_category : String) : Option String :=
  if fee_category = "platform" then some PLATFORM_FEES_KEY
  else if fee_category = "leaderboard" then some LEADERBOARD_FEES_KEY
  else if fee_category = "creator" then some CREATOR_FEES_KEY
  else none

/-- Rust `Treasury::deposit_fees(env, source, fee_category, amount)`, in the
exact order of the source: positivity check, USDC lookup, token transfer
from `source` to the contract, category routing, pool increment (i128,
wrapping), `FeeDeposited` event. `c` is `env.current_contract_address()`. -/
def deposit_fees (c : Address) (w : World) (source : Address)
    (fee_category : String) (amount : Int) : Outcome :=
  if amount ≤ 0 then .err .invalidAmount []
  else
    match w.store.usdc with
    | none => .err .usdcNotSet []
    | some _usdc_token =>
      if xferFails w.bal source amount then .err .insufficientBalance []
      else
        let bal' := xferBal w.bal source c amount
        match categoryKey fee_category with
        | none => .err .invalidCategory [.transfer source c amount]
        | some key =>
          let current_balance : Int := (getPool w.store key).getD 0
          let newVal : Int := wrap128 (current_balance + amount)
          .ok { store := setPoolStore w.store key newVal, bal := bal' }
            [.transfer source c amount, .setPool key newVal,
             .emit (.feeDeposited amount)]

/-- The `u32` running total `total_shares` of `distribute_leaderboard`,
accumulated with wrapping 32-bit addition. -/
def sharesSumU32 (rewards : List (Address × Nat)) : Nat :=
  rewards.foldl (fun acc p => (acc + p.2) % 2 ^ 32) 0

/-- Rust `let amount = (total_fees * share as i128) / 10000;` — i128 product
(wrapping) followed by Rust's truncating division. -/
def payAmt (total_fees : Int) (share : Nat) : Int :=
  (wrap128 (total_fees * (share : Int))).tdiv 10000

/-- Result of the payout loop of `distribute_leaderboard`: either a transfer
panicked (`fail`, carrying the transfers already performed, which the host
reverts) or the loop finished with the final balances, the accumulated
`distributed_amount` and the transfer trace. -/
inductive LoopRes where
  | fail (tr : List Act)
  | done (b : Address → Int) (distributed : Int) (tr : List Act)

/-- The payout loop of `distribute_leaderboard`: for each `(winner, share)`
in order, compute `amount`; when `amount > 0`, transfer it from the contract
to the winner and add it (i128, wrapping) to `distributed_amount`. -/
def distLoop (c : Address) (total_fees : Int) :
    (Address → Int) → List (Address × Nat) → Int → LoopRes
  | b, [], d => .done b d []
  | b, (winner, share) :: rest, d =>
    let amount := payAmt total_fees share
    if 0 < amount then
      if xferFails b c amount then .fail []
      else
        match distLoop c total_fees (xferBal b c winner amount) rest
            (wrap128 (d + amount)) with
        | .fail tr => .fail (.transfer c winner amount :: tr)
        | .done b2 d2 tr => .done b2 d2 (.transfer c winner amount :: tr)
    else distLoop c total_fees b rest d

/-- Rust `Treasury::distribute_leaderboard(env, rewards)`, in the exact order of
the source: admin lookup and `require_auth`, share-total validation (u32,
wrapping), zero-pool early return, USDC lookup, payout loop, single write of
the leaderboard pool to `total_fees - distributed_amount`, event. -/
def distribute_leaderboard (auth : Address → Bool) (c : Address) (w : World)
    (rewards : List (Address × Nat)) : Outcome :=
  match w.store.admin with
  | none => .err .adminNotSet []
  | some admin =>
    if auth admin then
      if sharesSumU32 rewards ≠ 10000 then .err .invalidShareTotal []
      else
        let total_fees := get_leaderboard_fees w
        if total_fees = 0 then .ok w []
        else
          match w.store.usdc with
          | none => .err .usdcNotSet []
          | some _usdc_token =>
            match distLoop c total_fees w.bal rewards 0 with
            | .fail tr => .err .insufficientBalance tr
            | .done bal' distributed_amount tr =>
              let remaining := wrap128 (total_fees - distributed_amount)
              .ok { store := setPoolStore w.store LEADERBOARD_FEES_KEY remaining
                    bal := bal' }
                (tr ++ [.setPool LEADERBOARD_FEES_KEY remaining,
                        .emit (.leaderboardDistributed total_fees
                          rewards.length)])
    else .err .authFailed []

/-- One external call to the Treasury contract. -/
inductive Call where
  | init (admin usdc factory : Address)
  | deposit (source : Address) (category : String) (amount : Int)
  | distribute (rewards : List (Address × Nat))

/-- Committed semantics of one call: on abort the Soroban host reverts every
write and sub-call, so the world is unchanged. -/
def execCall (auth : Address → Bool) (c : Address) (w : World) : Call → World
  | .init a u f =>
    match initializeTreasury auth w a u f with
    | .ok w' _ => w'
    | .err _ _ => w
  | .deposit s cat amt =>
    match deposit_fees c w s cat amt with
    | .ok w' _ => w'
    | .err _ _ => w
  | .distribute rs =>
    match distribute_leaderboard auth c w rs with
    | .ok w' _ => w'
    | .err _ _ => w

/-- Committed semantics of a sequence of calls. -/
def execCalls (auth : Address → Bool) (c : Address) (w : World)
    (calls : List Call) : World :=
  calls.foldl (execCall auth c) w

/-- The `distributed_amount` accumulated by a fully successful payout loop,
as a pure sum (each entry contributes its amount when positive, else 0). -/
def distributedAmt (total_fees : Int) (rewards : List (Address × Nat)) : Int :=
  (rewards.map (fun p =>
    if 0 < payAmt total_fees p.2 then payAmt total_fees p.2 else 0)).sum

/-- The transfer trace of a fully successful payout loop: one transfer from
the contract to each winner with a positive amount, in list order. -/
def payTrace (c : Address) (total_fees : Int)
    (rewards : List (Address × Nat)) : List Act :=
  rewards.filterMap (fun p =>
    if 0 < payAmt total_fees p.2 then
      some (.transfer c p.1 (payAmt total_fees p.2))
    else none)

/-- Recognize a pool-slot write in an action trace. -/
def isPoolWrite : Act → Bool
  | .setPool _ _ => true
  | _ => false

/-- Recognize a token transfer in an action trace. -/
def isXfer : Act → Bool
  | .transfer _ _ _ => true
  | _ => false

/-- No transfer occurs at or after a pool write in the trace. -/
def noXferAfterWrite : List Act → Bool
  | [] => true
  | a :: rest =>
    (if isPoolWrite a then rest.all (fun b => ! isXfer b) else true) &&
      noXferAfterWrite rest

/-- Total amount moved by the transfer actions of a trace. -/
def xferTotal : List Act → Int
  | [] => 0
  | .transfer _ _ amount :: rest => amount + xferTotal rest
  | _ :: rest => xferTotal rest

/-- Upper bound on how much the pools can grow over a call sequence: the sum
of the (positive parts of the) deposit amounts. -/
def depositBudget : List Call → Int
  | [] => 0
  | .deposit _ _ amt :: rest => max amt 0 + depositBudget rest
  | _ :: rest => depositBudget rest

/-- A distribution call is well-shaped when its true share sum is 10000, or
its wrapped u32 share sum is not 10000 (so validation rejects it).  This
rules out exactly the wrap-around lists of claim C10. -/
def goodCall : Call → Prop
  | .distribute rs => ((rs.map Prod.snd).sum = 10000 ∨ sharesSumU32 rs ≠ 10000)
  | _ => True

/-- Pool-accounting invariant: all three pools are nonnegative and their sum
is at most the budget `D`. -/
def PoolsOk (w : World) (D : Int) : Prop :=
  0 ≤ get_platform_fees w ∧ 0 ≤ get_leaderboard_fees w ∧
    0 ≤ get_creator_fees w ∧
    get_platform_fees w + get_leaderboard_fees w + get_creator_fees w ≤ D

set_option maxRecDepth 4000

/-! ### Arithmetic facts about the i128 wrap -/

theorem wrap128_lt (x : Int) : wrap128 x < 2 ^ 127 := by
  have h := Int.emod_lt_of_pos (x + 2 ^ 127) (b := 2 ^ 128) (by norm_num)
  unfold wrap128
  omega

theorem wrap128_ge (x : Int) : -2 ^ 127 ≤ wrap128 x := by
  have h := Int.emod_nonneg (x + 2 ^ 127) (b := 2 ^ 128) (by norm_num)
  unfold wrap128
  omega

theorem wrap128_eq_self {x : Int} (h1 : -2 ^ 127 ≤ x) (h2 : x < 2 ^ 127) :
    wrap128 x = x := by
  have h : (x + 2 ^ 127) % 2 ^ 128 = x + 2 ^ 127 :=
    Int.emod_eq_of_lt (by omega) (by omega)
  unfold wrap128
  omega

theorem wrap128_le_self {x : Int} (h : -2 ^ 127 ≤ x) : wrap128 x ≤ x := by
  have h0 : (0 : Int) ≤ x + 2 ^ 127 := by omega
  have hq : 0 ≤ (x + 2 ^ 127) / 2 ^ 128 := Int.ediv_nonneg h0 (by norm_num)
  have hd := Int.emod_def (x + 2 ^ 127) (2 ^ 128)
  have hm : (0 : Int) ≤ 2 ^ 128 * ((x + 2 ^ 127) / 2 ^ 128) :=
    mul_nonneg (by norm_num) hq
  unfold wrap128
  omega

/-! ### Bounds on the per-winner payout amounts -/

theorem tdiv_nonpos_of_nonpos {a : Int} (h : a ≤ 0) : a.tdiv 10000 ≤ 0 := by
  have : (-a).tdiv 10000 ≥ 0 := Int.tdiv_nonneg (by omega) (by norm_num)
  have hn := Int.neg_tdiv a 10000
  omega

theorem payAmt_pos_le {T : Int} (hT : 0 ≤ T) (s : Nat)
    (hpos : 0 < payAmt T s) : payAmt T s ≤ T * (s : Int) / 10000 := by
  have hTs : (0 : Int) ≤ T * (s : Int) := mul_nonneg hT (Int.natCast_nonneg s)
  have hwle : wrap128 (T * (s : Int)) ≤ T * (s : Int) :=
    wrap128_le_self (by have := wrap128_ge (T * (s : Int)); omega)
  by_cases hw : 0 ≤ wrap128 (T * (s : Int))
  · have heq : payAmt T s = wrap128 (T * (s : Int)) / 10000 :=
      Int.tdiv_eq_ediv hw (by norm_num)
    calc payAmt T s = wrap128 (T * (s : Int)) / 10000 := heq
      _ ≤ T * (s : Int) / 10000 := Int.ediv_le_ediv (by norm_num) hwle
  · exfalso
    have : payAmt T s ≤ 0 := tdiv_nonpos_of_nonpos (by omega)
    omega

theorem payAmt_clip_le {T : Int} (hT : 0 ≤ T) (s : Nat) :
    (if 0 < payAmt T s then payAmt T s else 0) ≤ T * (s : Int) / 10000 := by
  split
  · exact payAmt_pos_le hT s (by assumption)
  · exact Int.ediv_nonneg (mul_nonneg hT (Int.natCast_nonneg s)) (by norm_num)

theorem ediv_add_ediv_le (a b : Int) :
    a / 10000 + b / 10000 ≤ (a + b) / 10000 := by
  rw [Int.le_ediv_iff_mul_le (by norm_num : (0 : Int) < 10000)]
  have ha := Int.ediv_mul_le a (b := 10000) (by norm_num)
  have hb := Int.ediv_mul_le b (b := 10000) (by norm_num)
  have : (a / 10000 + b / 10000) * 10000 =
      a / 10000 * 10000 + b / 10000 * 10000 := by ring
  omega

/-! ### The total distributed amount and its conservation bound -/

theorem distributedAmt_nil (T : Int) : distributedAmt T [] = 0 := rfl

theorem distributedAmt_cons (T : Int) (a : Address) (s : Nat)
    (rs : List (Address × Nat)) :
    distributedAmt T ((a, s) :: rs) =
      (if 0 < payAmt T s then payAmt T s else 0) + distributedAmt T rs := by
  simp [distributedAmt]

theorem distributedAmt_nonneg (T : Int) (rs : List (Address × Nat)) :
    0 ≤ distributedAmt T rs := by
  induction rs with
  | nil => simp [distributedAmt_nil]
  | cons p rest ih =>
    obtain ⟨a, s⟩ := p
    rw [distributedAmt_cons]
    have : (0 : Int) ≤ (if 0 < payAmt T s then payAmt T s else 0) := by
      split
      · omega
      · omega
    omega

theorem distributedAmt_le_ediv {T : Int} (hT : 0 ≤ T)
    (rs : List (Address × Nat)) :
    distributedAmt T rs ≤ T * (((rs.map Prod.snd).sum : Nat) : Int) / 10000 := by
  induction rs with
  | nil => simp [distributedAmt_nil]
  | cons p rest ih =>
    obtain ⟨a, s⟩ := p
    rw [distributedAmt_cons]
    have h1 := payAmt_clip_le hT s
    have h2 := ediv_add_ediv_le (T * (s : Int))
      (T * (((rest.map Prod.snd).sum : Nat) : Int))
    have hnat : (((((a, s) :: rest).map Prod.snd).sum : Nat) : Int) =
        (s : Int) + (((rest.map Prod.snd).sum : Nat) : Int) := by
      simp
    have h3 : T * (s : Int) + T * (((rest.map Prod.snd).sum : Nat) : Int) =
        T * ((((((a, s) :: rest).map Prod.snd).sum : Nat)) : Int) := by
      rw [hnat]
      ring
    rw [h3] at h2
    omega

theorem distributedAmt_le_total {T : Int} (hT : 0 ≤ T)
    {rs : List (Address × Nat)} (hsum : (rs.map Prod.snd).sum = 10000) :
    distributedAmt T rs ≤ T := by
  have h := distributedAmt_le_ediv hT rs
  rw [hsum] at h
  have : T * ((10000 : Nat) : Int) / 10000 = T := by
    norm_num
  omega

/-! ### The transfer trace of a successful payout loop -/

theorem payTrace_nil (c : Address) (T : Int) : payTrace c T [] = [] := rfl

theorem payTrace_cons (c : Address) (T : Int) (a : Address) (s : Nat)
    (rs : List (Address × Nat)) :
    payTrace c T ((a, s) :: rs) =
      (if 0 < payAmt T s then
        Act.transfer c a (payAmt T s) :: payTrace c T rs
      else payTrace c T rs) := by
  by_cases hpos : 0 < payAmt T s
  · simp [payTrace, List.filterMap_cons, hpos]
  · simp [payTrace, List.filterMap_cons, hpos]

/-! ### The wrapping u32 share sum -/

theorem sharesSumU32_aux (rs : List (Address × Nat)) :
    ∀ acc : Nat, acc + (rs.map Prod.snd).sum < 2 ^ 32 →
      rs.foldl (fun acc p => (acc + p.2) % 2 ^ 32) acc =
        acc + (rs.map Prod.snd).sum := by
  induction rs with
  | nil => intro acc _; simp
  | cons p rest ih =>
    intro acc hlt
    obtain ⟨a, s⟩ := p
    simp only [List.map_cons, List.sum_cons, List.foldl_cons] at hlt ⊢
    have hmod : (acc + s) % 2 ^ 32 = acc + s := Nat.mod_eq_of_lt (by omega)
    rw [hmod, ih (acc + s) (by omega)]
    omega

theorem sharesSumU32_eq {rs : List (Address × Nat)}
    (h : (rs.map Prod.snd).sum < 2 ^ 32) :
    sharesSumU32 rs = (rs.map Prod.snd).sum := by
  have := sharesSumU32_aux rs 0 (by omega)
  simpa [sharesSumU32] using this

/-! ### Characterization of the payout loop -/

theorem distLoop_success (c : Address) (T : Int) (rs : List (Address × Nat)) :
    ∀ (b : Address → Int) (d : Int),
      0 ≤ d → 0 ≤ T →
      d + distributedAmt T rs < 2 ^ 127 →
      distributedAmt T rs ≤ b c →
      ∃ b2, distLoop c T b rs d =
        .done b2 (d + distributedAmt T rs) (payTrace c T rs) := by
  induction rs with
  | nil =>
    intro b d _ _ _ _
    exact ⟨b, by simp [distLoop, distributedAmt_nil, payTrace_nil]⟩
  | cons p rest ih =>
    intro b d hd hT hbound hbal
    obtain ⟨winner, s⟩ := p
    have hrest_nonneg := distributedAmt_nonneg T rest
    rw [distributedAmt_cons] at hbound hbal
    rw [payTrace_cons, distributedAmt_cons]
    by_cases hpos : 0 < payAmt T s
    · simp only [if_pos hpos] at hbound hbal ⊢
      have hnf : ¬ xferFails b c (payAmt T s) := by
        unfold xferFails
        push_neg
        exact ⟨by omega, by omega⟩
      have hwrap : wrap128 (d + payAmt T s) = d + payAmt T s :=
        wrap128_eq_self (by omega) (by omega)
      have hbal' : distributedAmt T rest ≤ xferBal b c winner (payAmt T s) c := by
        simp only [xferBal, if_pos rfl]
        split
        · omega
        · omega
      obtain ⟨b2, hb2⟩ :=
        ih (xferBal b c winner (payAmt T s)) (d + payAmt T s) (by omega) hT
          (by omega) hbal'
      refine ⟨b2, ?_⟩
      have hassoc : d + (payAmt T s + distributedAmt T rest) =
          (d + payAmt T s) + distributedAmt T rest := by ring
      rw [hassoc]
      simp only [distLoop, if_pos hpos, if_neg hnf, hwrap, hb2]
    · simp only [if_neg hpos, zero_add] at hbound hbal ⊢
      obtain ⟨b2, hb2⟩ := ih b d hd hT hbound hbal
      refine ⟨b2, ?_⟩
      simp only [distLoop, if_neg hpos, hb2]

theorem distLoop_done_amt (c : Address) (T : Int) (rs : List (Address × Nat)) :
    ∀ (b : Address → Int) (d : Int),
      0 ≤ d → 0 ≤ T →
      d + distributedAmt T rs < 2 ^ 127 →
      (match distLoop c T b rs d with
       | .fail _ => True
       | .done _ d2 _ => d2 = d + distributedAmt T rs) := by
  induction rs with
  | nil =>
    intro b d _ _ _
    simp [distLoop, distributedAmt_nil]
  | cons p rest ih =>
    intro b d hd hT hbound
    obtain ⟨winner, s⟩ := p
    have hrest_nonneg := distributedAmt_nonneg T rest
    rw [distributedAmt_cons] at hbound ⊢
    by_cases hpos : 0 < payAmt T s
    · simp only [if_pos hpos] at hbound ⊢
      simp only [distLoop, if_pos hpos]
      by_cases hfail : xferFails b c (payAmt T s)
      · simp [if_pos hfail]
      · simp only [if_neg hfail]
        have hwrap : wrap128 (d + payAmt T s) = d + payAmt T s :=
          wrap128_eq_self (by omega) (by omega)
        rw [hwrap]
        have hrec := ih (xferBal b c winner (payAmt T s)) (d + payAmt T s)
          (by omega) hT (by omega)
        cases hloop : distLoop c T (xferBal b c winner (payAmt T s)) rest
            (d + payAmt T s) with
        | fail tr' => exact trivial
        | done b3 d3 tr' =>
          rw [hloop] at hrec
          have hval : d3 = d + payAmt T s + distributedAmt T rest := hrec
          show d3 = d + (payAmt T s + distributedAmt T rest)
          omega
    · simp only [if_neg hpos, zero_add] at hbound ⊢
      simp only [distLoop, if_neg hpos]
      exact ih b d hd hT hbound

theorem distLoop_trace_xfers (c : Address) (T : Int)
    (rs : List (Address × Nat)) :
    ∀ (b : Address → Int) (d : Int),
      (match distLoop c T b rs d with
       | .fail tr => tr.all isXfer
       | .done _ _ tr => tr.all isXfer) = true := by
  induction rs with
  | nil => intro b d; simp [distLoop]
  | cons p rest ih =>
    intro b d
    obtain ⟨winner, s⟩ := p
    by_cases hpos : 0 < payAmt T s
    · simp only [distLoop, if_pos hpos]
      by_cases hfail : xferFails b c (payAmt T s)
      · simp [if_pos hfail]
      · simp only [if_neg hfail]
        have := ih (xferBal b c winner (payAmt T s)) (wrap128 (d + payAmt T s))
        cases hrec : distLoop c T (xferBal b c winner (payAmt T s)) rest
            (wrap128 (d + payAmt T s)) with
        | fail tr' =>
          rw [hrec] at this
          simp_all [isXfer]
        | done b3 d3 tr' =>
          rw [hrec] at this
          simp_all [isXfer]
    · simp only [distLoop, if_neg hpos]
      exact ih b d

/-! ### Trace shape facts -/

theorem countP_poolWrite_zero {tr : List Act} (h : tr.all isXfer = true) :
    tr.countP isPoolWrite = 0 := by
  induction tr with
  | nil => simp
  | cons a rest ih =>
    simp only [List.all_cons, Bool.and_eq_true] at h
    rw [List.countP_cons]
    have ha : isPoolWrite a = false := by
      cases a <;> simp_all [isXfer, isPoolWrite]
    simp [ha, ih h.2]

theorem noXferAfterWrite_append {tr : List Act} (h : tr.all isXfer = true)
    (k : String) (v : Int) (e : Event) :
    noXferAfterWrite (tr ++ [Act.setPool k v, Act.emit e]) = true := by
  induction tr with
  | nil => simp [noXferAfterWrite, isPoolWrite, isXfer]
  | cons a rest ih =>
    simp only [List.all_cons, Bool.and_eq_true] at h
    have ha : isPoolWrite a = false := by
      cases a <;> simp_all [isXfer, isPoolWrite]
    simp only [List.cons_append, noXferAfterWrite, ha, Bool.false_eq_true,
      if_false, Bool.true_and, List.append_eq, ih h.2]

/-! ### Concrete sample data used by witnesses and counterexamples -/

/-- An authorization oracle granting every identity's authorization. -/
def authAll : Address → Bool := fun _ => true

/-- A token-ledger balance map: address 4 holds 10000010 units. -/
def sampleBal : Address → Int := fun a => if a = 4 then 10000010 else 0

/-- Treasury initialized (admin 1, usdc 2, factory 3) with a leaderboard
pool of 3000000, whose ledger balance (address 0 is the contract) covers
the pool. -/
def wScenario : World :=
  { store := { admin := some 1, usdc := some 2, factory := some 3,
               platform_fees := some 0, leaderboard_fees := some 3000000,
               creator_fees := some 0 },
    bal := fun a => if a = 0 then 3000000 else 0 }

/-- Treasury with admin/usdc/factory set and no pool entries (all read 0). -/
def wNoPool : World :=
  { store := { admin := some 1, usdc := some 2, factory := some 3,
               platform_fees := none, leaderboard_fees := none,
               creator_fees := none },
    bal := sampleBal }

/-- Treasury with a leaderboard pool of 10, a platform pool of 10000000 and
a contract ledger balance of 10000010 (exactly the two pools). -/
def wWrapPool : World :=
  { store := { admin := some 1, usdc := some 2, factory := some 3,
               platform_fees := some 10000000, leaderboard_fees := some 10,
               creator_fees := some 0 },
    bal := fun a => if a = 0 then 10000010 else 0 }

/-- Treasury whose platform pool holds the maximal i128 value. -/
def wMaxPool : World :=
  { store := { admin := some 1, usdc := some 2, factory := some 3,
               platform_fees := some (2 ^ 127 - 1), leaderboard_fees := some 0,
               creator_fees := some 0 },
    bal := fun a => if a = 9 then 1 else 0 }

/-- A completely uninitialized world over the sample ledger. -/
def wStart : World :=
  { store := { admin := none, usdc := none, factory := none,
               platform_fees := none, leaderboard_fees := none,
               creator_fees := none },
    bal := sampleBal }

/-- The share list of claim C10: its true share sum is `2 ^ 32 + 10000`, its
wrapped u32 sum is 10000. -/
def wrapShares : List (Address × Nat) := [(5, 4294967295), (6, 10001)]

/-- The call sequence refuting the unconditional pool-nonnegativity claim:
initialize, fund the platform pool with 10000000 and the leaderboard pool
with 10, then distribute with the wrap-around share list. -/
def wrapCalls : List Call :=
  [.init 1 2 3, .deposit 4 "platform" 10000000,
   .deposit 4 "leaderboard" 10, .distribute wrapShares]

/-! ### Claim theorems -/

/-- C7: for every source and category, `deposit_fees` with `amount ≤ 0`
always fails with InvalidAmount before any mutation: the abort trace is
empty (no transfer attempted) and the committed world is unchanged. -/
theorem deposit_nonpositive_fails (auth : Address → Bool) (c : Address)
    (w : World) (source : Address) (cat : String) (amount : Int)
    (h : amount ≤ 0) :
    deposit_fees c w source cat amount = .err .invalidAmount [] ∧
      execCall auth c w (.deposit source cat amount) = w := by
  have h1 : deposit_fees c w source cat amount = .err .invalidAmount [] := by
    simp [deposit_fees, h]
  exact ⟨h1, by simp [execCall, h1]⟩

/-- C7 witness: a deposit of -5 fails with InvalidAmount and changes
nothing. -/
theorem deposit_nonpositive_fails_witness :
    ((-5 : Int) ≤ 0) ∧
      (deposit_fees 0 wNoPool 9 "platform" (-5) = .err .invalidAmount [] ∧
        execCall authAll 0 wNoPool (.deposit 9 "platform" (-5)) = wNoPool) :=
  ⟨by norm_num,
   deposit_nonpositive_fails authAll 0 wNoPool 9 "platform" (-5) (by norm_num)⟩

/-- C5: with the stored admin authorized, a reward list whose shares sum to
10000 and a zero leaderboard pool, `distribute_leaderboard` succeeds as a
no-op: same world, empty trace (no transfer, no pool write, no event). -/
theorem distribute_zero_pool_noop (auth : Address → Bool) (c : Address)
    (w : World) (rs : List (Address × Nat)) (a : Address)
    (hadmin : w.store.admin = some a) (hauth : auth a = true)
    (hsum : (rs.map Prod.snd).sum = 10000)
    (hpool : get_leaderboard_fees w = 0) :
    distribute_leaderboard auth c w rs = .ok w [] := by
  have hwrapped : sharesSumU32 rs = 10000 := by
    rw [sharesSumU32_eq (by rw [hsum]; norm_num)]
    exact hsum
  simp [distribute_leaderboard, hadmin, hauth, hwrapped, hpool]

/-- C5 witness: a zero-pool distribution for a single 100% winner is a
no-op. -/
theorem distribute_zero_pool_noop_witness :
    (wNoPool.store.admin = some 1 ∧ authAll 1 = true ∧
      (([(5, 10000)] : List (Address × Nat)).map Prod.snd).sum = 10000 ∧
      get_leaderboard_fees wNoPool = 0) ∧
      distribute_leaderboard authAll 0 wNoPool [(5, 10000)] = .ok wNoPool [] :=
  ⟨⟨rfl, rfl, by decide, rfl⟩,
   distribute_zero_pool_noop authAll 0 wNoPool [(5, 10000)] 1 rfl rfl
     (by decide) rfl⟩

/-- The storage record produced by an `initialize` call. -/
def initState (admin usdc factory : Address) : TreasuryState :=
  { admin := some admin, usdc := some usdc, factory := some factory,
    platform_fees := some 0, leaderboard_fees := some 0,
    creator_fees := some 0 }

/-- C9: any authorized `initialize` call fully overwrites the stored state:
admin, usdc and factory are replaced and all three pools are reset to 0
(so all three pool accessors read 0 afterwards), whatever the prior state
held, and the initialization event is emitted. -/
theorem initialize_overwrites_state (auth : Address → Bool) (w : World)
    (admin usdc factory : Address) (hauth : auth admin = true) :
    initializeTreasury auth w admin usdc factory =
      .ok { store := initState admin usdc factory, bal := w.bal }
        [.setPool PLATFORM_FEES_KEY 0, .setPool LEADERBOARD_FEES_KEY 0,
         .setPool CREATOR_FEES_KEY 0,
         .emit (.treasuryInitialized admin usdc factory)] ∧
      get_platform_fees { store := initState admin usdc factory, bal := w.bal } = 0 ∧
      get_leaderboard_fees { store := initState admin usdc factory, bal := w.bal } = 0 ∧
      get_creator_fees { store := initState admin usdc factory, bal := w.bal } = 0 := by
  refine ⟨?_, rfl, rfl, rfl⟩
  simp [initializeTreasury, initState, hauth]

/-- C9 witness: re-initializing a treasury holding a 3000000 leaderboard
pool resets every pool accessor to 0. -/
theorem initialize_overwrites_state_witness :
    (authAll 7 = true) ∧
      (initializeTreasury authAll wScenario 7 8 9 =
        .ok { store := initState 7 8 9, bal := wScenario.bal }
          [.setPool PLATFORM_FEES_KEY 0, .setPool LEADERBOARD_FEES_KEY 0,
           .setPool CREATOR_FEES_KEY 0, .emit (.treasuryInitialized 7 8 9)] ∧
        get_platform_fees { store := initState 7 8 9, bal := wScenario.bal } = 0 ∧
        get_leaderboard_fees { store := initState 7 8 9, bal := wScenario.bal } = 0 ∧
        get_creator_fees { store := initState 7 8 9, bal := wScenario.bal } = 0) :=
  ⟨rfl, initialize_overwrites_state authAll wScenario 7 8 9 rfl⟩

/-- C2 counterexample: the wrap-around share list has a true share sum of
`2 ^ 32 + 10000 ≠ 10000`, yet `distribute_leaderboard` (admin authorized,
zero pool) does NOT fail with InvalidShareTotal — it succeeds as a no-op,
because the `u32` running total wraps to exactly 10000. -/
theorem distribute_bad_sum_counterexample :
    ((wrapShares.map Prod.snd).sum ≠ 10000) ∧
      distribute_leaderboard authAll 0 wNoPool wrapShares = .ok wNoPool [] := by
  constructor
  · decide
  · rfl

/-- C2 amended: with the stored admin authorized, every reward list whose
WRAPPED u32 share sum differs from 10000 fails with InvalidShareTotal,
performs no transfer (empty abort trace) and leaves the committed world
unchanged. -/
theorem distribute_bad_wrapped_sum_fails (auth : Address → Bool) (c : Address)
    (w : World) (rs : List (Address × Nat)) (a : Address)
    (hadmin : w.store.admin = some a) (hauth : auth a = true)
    (hsum : sharesSumU32 rs ≠ 10000) :
    distribute_leaderboard auth c w rs = .err .invalidShareTotal [] ∧
      execCall auth c w (.distribute rs) = w := by
  have h1 : distribute_leaderboard auth c w rs = .err .invalidShareTotal [] := by
    simp [distribute_leaderboard, hadmin, hauth, hsum]
  exact ⟨h1, by simp [execCall, h1]⟩

/-- C2 witness: a single entry at 9000 bps is rejected with
InvalidShareTotal and nothing changes. -/
theorem distribute_bad_wrapped_sum_fails_witness :
    (wNoPool.store.admin = some 1 ∧ authAll 1 = true ∧
      sharesSumU32 [(5, 9000)] ≠ 10000) ∧
      (distribute_leaderboard authAll 0 wNoPool [(5, 9000)] =
        .err .invalidShareTotal [] ∧
        execCall authAll 0 wNoPool (.distribute [(5, 9000)]) = wNoPool) :=
  ⟨⟨rfl, rfl, by decide⟩,
   distribute_bad_wrapped_sum_fails authAll 0 wNoPool [(5, 9000)] 1 rfl rfl
     (by decide)⟩

/-- C10: the share validation adds the u32 share values with wrap-around:
the list `wrapShares` has true share sum `2 ^ 32 + 10000` (its first entry
alone is 4294967295 bps, far above 10000, and is not rejected), its wrapped
u32 sum is exactly 10000, so it passes validation; against a leaderboard
pool of 10 the call then attempts (and here completes) payouts totalling
4294977, far exceeding the pool, driving the pool to 10 - 4294977. -/
theorem share_sum_u32_wraparound :
    ((wrapShares.map Prod.snd).sum = 2 ^ 32 + 10000) ∧
      sharesSumU32 wrapShares = 10000 ∧
      get_leaderboard_fees wWrapPool = 10 ∧
      (match distribute_leaderboard authAll 0 wWrapPool wrapShares with
       | .ok w' tr =>
         xferTotal tr = 4294977 ∧ get_leaderboard_fees wWrapPool < xferTotal tr ∧
           get_leaderboard_fees w' = 10 - 4294977
       | .err _ _ => False) := by
  refine ⟨by decide, by decide, rfl, ?_⟩
  exact ⟨by decide, by decide, by decide⟩

/-- Any key produced by `categoryKey` is one of the three pool keys. -/
theorem categoryKey_mem {cat key : String} (h : categoryKey cat = some key) :
    key = PLATFORM_FEES_KEY ∨ key = LEADERBOARD_FEES_KEY ∨
      key = CREATOR_FEES_KEY := by
  unfold categoryKey at h
  split_ifs at h <;> simp_all

/-- Writing one pool slot leaves every other storage key's pool value
unchanged. -/
theorem getPool_set_other (s : TreasuryState) (key : String) (v : Int)
    (k' : String) (hne : k' ≠ key) :
    getPool (setPoolStore s key v) k' = getPool s k' := by
  unfold getPool setPoolStore
  split_ifs <;> simp_all

/-- Writing a valid pool slot is read back by `getPool`. -/
theorem getPool_set_same (s : TreasuryState) (key : String) (v : Int)
    (hkey : key = PLATFORM_FEES_KEY ∨ key = LEADERBOARD_FEES_KEY ∨
      key = CREATOR_FEES_KEY) :
    getPool (setPoolStore s key v) key = some v := by
  rcases hkey with rfl | rfl | rfl <;>
    simp [getPool, setPoolStore, PLATFORM_FEES_KEY, LEADERBOARD_FEES_KEY,
      CREATOR_FEES_KEY]

/-- C8 counterexample: with the USDC token configured but the source holding
no balance, a deposit with the unknown category "bogus" fails with the token
transfer's own panic (insufficient balance), NOT with InvalidCategory — the
category check sits after the transfer and is never reached. -/
theorem deposit_invalid_category_error_counterexample :
    deposit_fees 0 wNoPool 9 "bogus" 5 = .err .insufficientBalance [] ∧
      (Err.insufficientBalance ≠ Err.invalidCategory) := by
  exact ⟨rfl, by decide⟩

/-- C8 amended: with the USDC token configured and `amount > 0`, a deposit
with an unrecognized category always fails and leaves the committed world
unchanged; the error is InvalidCategory exactly when the source-to-treasury
transfer succeeds (the abort trace then contains that transfer, showing the
category validation runs after the transfer), and it is the transfer's own
failure when the transfer fails first. -/
theorem deposit_invalid_category_fails (auth : Address → Bool) (c : Address)
    (w : World) (source : Address) (cat : String) (amount : Int) (u : Address)
    (hpos : 0 < amount) (husdc : w.store.usdc = some u)
    (hcat : categoryKey cat = none) :
    (if xferFails w.bal source amount then
       deposit_fees c w source cat amount = .err .insufficientBalance []
     else
       deposit_fees c w source cat amount =
         .err .invalidCategory [.transfer source c amount]) ∧
      execCall auth c w (.deposit source cat amount) = w := by
  have hnle : ¬ amount ≤ 0 := by omega
  by_cases hf : xferFails w.bal source amount
  · have h1 : deposit_fees c w source cat amount =
        .err .insufficientBalance [] := by
      simp [deposit_fees, hnle, husdc, hf]
    exact ⟨by rw [if_pos hf]; exact h1, by simp [execCall, h1]⟩
  · have h1 : deposit_fees c w source cat amount =
        .err .invalidCategory [.transfer source c amount] := by
      simp [deposit_fees, hnle, husdc, hf, hcat]
    exact ⟨by rw [if_neg hf]; exact h1, by simp [execCall, h1]⟩

/-- C8 witness: source 4 holds 10000010, so the transfer of 5 succeeds and
the "bogus"-category deposit aborts with InvalidCategory after it. -/
theorem deposit_invalid_category_fails_witness :
    ((0 : Int) < 5 ∧ wNoPool.store.usdc = some 2 ∧
      categoryKey "bogus" = none) ∧
      ((if xferFails wNoPool.bal 4 5 then
          deposit_fees 0 wNoPool 4 "bogus" 5 = .err .insufficientBalance []
        else
          deposit_fees 0 wNoPool 4 "bogus" 5 =
            .err .invalidCategory [.transfer 4 0 5]) ∧
        execCall authAll 0 wNoPool (.deposit 4 "bogus" 5) = wNoPool) :=
  ⟨⟨by norm_num, rfl, by decide⟩,
   deposit_invalid_category_fails authAll 0 wNoPool 4 "bogus" 5 2
     (by norm_num) rfl (by decide)⟩

/-- C6 counterexample: a deposit of 1 into a platform pool already holding
the maximal i128 value `2 ^ 127 - 1` succeeds but wraps the pool to
`-2 ^ 127` instead of incrementing it by exactly 1. -/
theorem deposit_overflow_counterexample :
    (match deposit_fees 0 wMaxPool 9 "platform" 1 with
     | .ok w' _ => get_platform_fees wMaxPool = 2 ^ 127 - 1 ∧
         get_platform_fees w' = -(2 ^ 127) ∧
         get_platform_fees w' ≠ get_platform_fees wMaxPool + 1
     | .err _ _ => False) := by
  exact ⟨by decide, by decide, by decide⟩

/-- C6 amended: with the USDC token configured, a positive amount the source
can pay, a recognized category, and no i128 overflow of the target pool
(`current + amount < 2 ^ 127`), `deposit_fees` succeeds, moves `amount` on
the token ledger from the source to the contract, increments exactly the
resolved pool by exactly `amount`, leaves every other storage key unchanged,
and emits one FeeDeposited event carrying `amount`. -/
theorem deposit_increments_pool (c : Address) (w : World) (source : Address)
    (cat : String) (amount : Int) (u : Address) (key : String)
    (hpos : 0 < amount) (husdc : w.store.usdc = some u)
    (hcat : categoryKey cat = some key)
    (hbal : amount ≤ w.bal source)
    (hlow : -2 ^ 127 ≤ (getPool w.store key).getD 0)
    (hhigh : (getPool w.store key).getD 0 + amount < 2 ^ 127) :
    deposit_fees c w source cat amount =
      .ok { store := setPoolStore w.store key
              ((getPool w.store key).getD 0 + amount),
            bal := xferBal w.bal source c amount }
        [.transfer source c amount,
         .setPool key ((getPool w.store key).getD 0 + amount),
         .emit (.feeDeposited amount)] ∧
      getPool (setPoolStore w.store key
          ((getPool w.store key).getD 0 + amount)) key =
        some ((getPool w.store key).getD 0 + amount) ∧
      (∀ k', k' ≠ key →
        getPool (setPoolStore w.store key
          ((getPool w.store key).getD 0 + amount)) k' = getPool w.store k') := by
  have hnle : ¬ amount ≤ 0 := by omega
  have hnf : ¬ xferFails w.bal source amount := by
    unfold xferFails
    push_neg
    exact ⟨by omega, by omega⟩
  have hwrap : wrap128 ((getPool w.store key).getD 0 + amount) =
      (getPool w.store key).getD 0 + amount :=
    wrap128_eq_self (by omega) (by omega)
  refine ⟨?_, getPool_set_same _ _ _ (categoryKey_mem hcat), ?_⟩
  · simp [deposit_fees, hnle, husdc, hnf, hcat, hwrap]
  · intro k' hne
    exact getPool_set_other w.store key _ k' hne

/-- C6 witness: the spec's concrete scenario — depositing 10000000 into the
leaderboard pool of an empty treasury makes that pool 10000000 with one
FeeDeposited event, other pools untouched. -/
theorem deposit_increments_pool_witness :
    ((0 : Int) < 10000000 ∧ wNoPool.store.usdc = some 2 ∧
      categoryKey "leaderboard" = some LEADERBOARD_FEES_KEY ∧
      (10000000 : Int) ≤ wNoPool.bal 4 ∧
      -2 ^ 127 ≤ (getPool wNoPool.store LEADERBOARD_FEES_KEY).getD 0 ∧
      (getPool wNoPool.store LEADERBOARD_FEES_KEY).getD 0 + 10000000 < 2 ^ 127) ∧
      (deposit_fees 0 wNoPool 4 "leaderboard" 10000000 =
        .ok { store := setPoolStore wNoPool.store LEADERBOARD_FEES_KEY
                ((getPool wNoPool.store LEADERBOARD_FEES_KEY).getD 0 + 10000000),
              bal := xferBal wNoPool.bal 4 0 10000000 }
          [.transfer 4 0 10000000,
           .setPool LEADERBOARD_FEES_KEY
             ((getPool wNoPool.store LEADERBOARD_FEES_KEY).getD 0 + 10000000),
           .emit (.feeDeposited 10000000)] ∧
        getPool (setPoolStore wNoPool.store LEADERBOARD_FEES_KEY
            ((getPool wNoPool.store LEADERBOARD_FEES_KEY).getD 0 + 10000000))
          LEADERBOARD_FEES_KEY =
          some ((getPool wNoPool.store LEADERBOARD_FEES_KEY).getD 0 + 10000000) ∧
        (∀ k', k' ≠ LEADERBOARD_FEES_KEY →
          getPool (setPoolStore wNoPool.store LEADERBOARD_FEES_KEY
            ((getPool wNoPool.store LEADERBOARD_FEES_KEY).getD 0 + 10000000)) k' =
            getPool wNoPool.store k')) :=
  ⟨⟨by norm_num, rfl, by decide, by decide, by decide, by decide⟩,
   deposit_increments_pool 0 wNoPool 4 "leaderboard" 10000000 2
     LEADERBOARD_FEES_KEY (by norm_num) rfl (by decide) (by decide)
     (by decide) (by decide)⟩

/-- Writing the leaderboard pool slot only replaces the leaderboard field. -/
theorem setPoolStore_leaderboard (s : TreasuryState) (v : Int) :
    setPoolStore s LEADERBOARD_FEES_KEY v = { s with leaderboard_fees := some v } := by
  simp [setPoolStore, LEADERBOARD_FEES_KEY, PLATFORM_FEES_KEY]

/-- C1: with the stored admin authorized, the USDC token configured, a
reward list whose share values truly sum to 10000 bps, a positive i128
leaderboard pool `T` backed by the contract's token balance,
`distribute_leaderboard` succeeds; its trace pays each entry, in the list's
given order, exactly the i128-computed amount
`(T * share as i128) / 10000` (skipping entries whose amount is not
positive), the total paid `distributedAmt T rs` satisfies
`0 ≤ distributedAmt T rs ≤ T`, and afterwards the leaderboard pool holds
exactly `T - distributedAmt T rs` — dust is retained, never lost or
duplicated. -/
theorem distribute_pays_shares_conserves (auth : Address → Bool) (c : Address)
    (w : World) (rs : List (Address × Nat)) (a u : Address) (T : Int)
    (hadmin : w.store.admin = some a) (hauth : auth a = true)
    (husdc : w.store.usdc = some u)
    (hsum : (rs.map Prod.snd).sum = 10000)
    (hT : get_leaderboard_fees w = T) (hTpos : 0 < T)
    (hTrange : T < 2 ^ 127) (hbal : T ≤ w.bal c) :
    (match distribute_leaderboard auth c w rs with
     | .ok w' tr =>
       w'.store = { w.store with leaderboard_fees := some (T - distributedAmt T rs) } ∧
       tr = payTrace c T rs ++
         [.setPool LEADERBOARD_FEES_KEY (T - distributedAmt T rs),
          .emit (.leaderboardDistributed T rs.length)] ∧
       0 ≤ distributedAmt T rs ∧ distributedAmt T rs ≤ T ∧
       get_leaderboard_fees w' = T - distributedAmt T rs
     | .err _ _ => False) := by
  have hT0 : (0 : Int) ≤ T := le_of_lt hTpos
  have hD0 := distributedAmt_nonneg T rs
  have hDle := distributedAmt_le_total hT0 hsum
  have hwrapped : sharesSumU32 rs = 10000 := by
    rw [sharesSumU32_eq (by rw [hsum]; norm_num)]
    exact hsum
  obtain ⟨b2, hloop⟩ := distLoop_success c T rs w.bal 0 le_rfl hT0 (by omega)
    (by omega)
  rw [zero_add] at hloop
  have hwrap : wrap128 (T - distributedAmt T rs) = T - distributedAmt T rs :=
    wrap128_eq_self (by omega) (by omega)
  have heq : distribute_leaderboard auth c w rs =
      .ok { store := setPoolStore w.store LEADERBOARD_FEES_KEY
              (T - distributedAmt T rs), bal := b2 }
        (payTrace c T rs ++
         [.setPool LEADERBOARD_FEES_KEY (T - distributedAmt T rs),
          .emit (.leaderboardDistributed T rs.length)]) := by
    simp only [distribute_leaderboard, hadmin, hauth, if_true, hT]
    rw [if_neg (show ¬ (sharesSumU32 rs ≠ 10000) from by simp [hwrapped])]
    rw [if_neg (show ¬ (T = 0) from by omega)]
    simp only [husdc, hloop, hwrap]
  rw [heq]
  refine ⟨by rw [setPoolStore_leaderboard], rfl, hD0, hDle, ?_⟩
  simp [get_leaderboard_fees, setPoolStore_leaderboard]

/-- C1 witness: the spec's concrete scenario — pool 3000000, two winners at
5000 bps each — pays 1500000 to each winner in order and zeroes the pool. -/
theorem distribute_pays_shares_conserves_witness :
    (wScenario.store.admin = some 1 ∧ authAll 1 = true ∧
      wScenario.store.usdc = some 2 ∧
      (([(5, 5000), (6, 5000)] : List (Address × Nat)).map Prod.snd).sum = 10000 ∧
      get_leaderboard_fees wScenario = 3000000 ∧ (0 : Int) < 3000000 ∧
      (3000000 : Int) < 2 ^ 127 ∧ (3000000 : Int) ≤ wScenario.bal 0) ∧
      (match distribute_leaderboard authAll 0 wScenario [(5, 5000), (6, 5000)] with
       | .ok w' tr =>
         w'.store =
           { wScenario.store with
             leaderboard_fees :=
               some (3000000 - distributedAmt 3000000 [(5, 5000), (6, 5000)]) } ∧
         tr = payTrace 0 3000000 [(5, 5000), (6, 5000)] ++
           [.setPool LEADERBOARD_FEES_KEY
              (3000000 - distributedAmt 3000000 [(5, 5000), (6, 5000)]),
            .emit (.leaderboardDistributed 3000000
              ([(5, 5000), (6, 5000)] : List (Address × Nat)).length)] ∧
         0 ≤ distributedAmt 3000000 [(5, 5000), (6, 5000)] ∧
         distributedAmt 3000000 [(5, 5000), (6, 5000)] ≤ 3000000 ∧
         get_leaderboard_fees w' =
           3000000 - distributedAmt 3000000 [(5, 5000), (6, 5000)]
       | .err _ _ => False) :=
  ⟨⟨rfl, rfl, rfl, by decide, rfl, by norm_num, by norm_num, by decide⟩,
   distribute_pays_shares_conserves authAll 0 wScenario [(5, 5000), (6, 5000)]
     1 2 3000000 rfl rfl rfl (by decide) rfl (by norm_num) (by norm_num)
     (by decide)⟩

/-- C3 counterexample: a successful `distribute_leaderboard` call against a
zero pool commits with an empty trace — the leaderboard pool is written zero
times, not "exactly once". -/
theorem distribute_zero_pool_no_write_counterexample :
    distribute_leaderboard authAll 0 wNoPool [(5, 10000)] = .ok wNoPool [] ∧
      ([] : List Act).countP isPoolWrite = 0 := by
  exact ⟨rfl, by decide⟩

/-- C3 amended: in `distribute_leaderboard` the leaderboard pool is written
at most once, only after the entire payout loop: on any abort (including a
transfer failing mid-loop) the trace contains no pool write and the
committed world is unchanged; on success, either the call was the zero-pool
no-op (no write at all), or the trace contains exactly one pool write and no
transfer occurs at or after it. -/
theorem distribute_single_pool_write_atomic (auth : Address → Bool)
    (c : Address) (w : World) (rs : List (Address × Nat)) :
    (match distribute_leaderboard auth c w rs with
     | .err _ tr => tr.countP isPoolWrite = 0 ∧
         execCall auth c w (.distribute rs) = w
     | .ok w' tr => (get_leaderboard_fees w = 0 ∧ w' = w ∧ tr = []) ∨
         (tr.countP isPoolWrite = 1 ∧ noXferAfterWrite tr = true)) := by
  cases hadm : w.store.admin with
  | none => simp [distribute_leaderboard, hadm, execCall]
  | some a =>
    by_cases hauth : auth a
    case neg => simp [distribute_leaderboard, hadm, hauth, execCall]
    case pos =>
      by_cases hsum : sharesSumU32 rs ≠ 10000
      · have h1 : distribute_leaderboard auth c w rs =
            .err .invalidShareTotal [] := by
          simp [distribute_leaderboard, hadm, hauth, hsum]
        rw [h1]
        exact ⟨by decide, by simp [execCall, h1]⟩
      · by_cases hz : get_leaderboard_fees w = 0
        · have h1 : distribute_leaderboard auth c w rs = .ok w [] := by
            simp [distribute_leaderboard, hadm, hauth, hsum, hz]
          rw [h1]
          exact Or.inl ⟨hz, rfl, rfl⟩
        · cases husdc : w.store.usdc with
          | none =>
            have h1 : distribute_leaderboard auth c w rs =
                .err .usdcNotSet [] := by
              simp [distribute_leaderboard, hadm, hauth, hsum, hz, husdc]
            rw [h1]
            exact ⟨by decide, by simp [execCall, h1]⟩
          | some uu =>
            have htr := distLoop_trace_xfers c (get_leaderboard_fees w) rs
              w.bal 0
            cases hloop : distLoop c (get_leaderboard_fees w) w.bal rs 0 with
            | fail tr =>
              rw [hloop] at htr
              have h1 : distribute_leaderboard auth c w rs =
                  .err .insufficientBalance tr := by
                simp [distribute_leaderboard, hadm, hauth, hsum, hz, husdc,
                  hloop]
              rw [h1]
              exact ⟨countP_poolWrite_zero htr, by simp [execCall, h1]⟩
            | done b2 d2 tr =>
              rw [hloop] at htr
              have h1 : distribute_leaderboard auth c w rs =
                  .ok { store := setPoolStore w.store LEADERBOARD_FEES_KEY
                          (wrap128 (get_leaderboard_fees w - d2)), bal := b2 }
                    (tr ++ [.setPool LEADERBOARD_FEES_KEY
                        (wrap128 (get_leaderboard_fees w - d2)),
                      .emit (.leaderboardDistributed (get_leaderboard_fees w)
                        rs.length)]) := by
                simp [distribute_leaderboard, hadm, hauth, hsum, hz, husdc,
                  hloop]
              rw [h1]
              refine Or.inr ⟨?_, noXferAfterWrite_append htr _ _ _⟩
              rw [List.countP_append, countP_poolWrite_zero htr]
              simp [List.countP_cons, isPoolWrite]

/-- C4 counterexample: starting from an uninitialized world and the sample
ledger, the reachable sequence [initialize; deposit 10000000 into platform;
deposit 10 into leaderboard; distribute the wrap-around share list] drives
the leaderboard pool to 10 - 4294977 = -4294967 < 0 — the pools are NOT
always nonnegative. -/
theorem pools_nonneg_counterexample :
    get_leaderboard_fees (execCalls authAll 0 wStart wrapCalls) = 10 - 4294977 ∧
      get_leaderboard_fees (execCalls authAll 0 wStart wrapCalls) < 0 := by
  exact ⟨by decide, by decide⟩

/-- Reading `getPool` at the platform key reads the platform field. -/
theorem getPool_platform (s : TreasuryState) :
    getPool s PLATFORM_FEES_KEY = s.platform_fees := by
  simp [getPool]

/-- Reading `getPool` at the leaderboard key reads the leaderboard field. -/
theorem getPool_leaderboard (s : TreasuryState) :
    getPool s LEADERBOARD_FEES_KEY = s.leaderboard_fees := by
  simp [getPool, LEADERBOARD_FEES_KEY, PLATFORM_FEES_KEY]

/-- Reading `getPool` at the creator key reads the creator field. -/
theorem getPool_creator (s : TreasuryState) :
    getPool s CREATOR_FEES_KEY = s.creator_fees := by
  simp [getPool, CREATOR_FEES_KEY, PLATFORM_FEES_KEY, LEADERBOARD_FEES_KEY]

/-- Writing the platform pool slot only replaces the platform field. -/
theorem setPoolStore_platform (s : TreasuryState) (v : Int) :
    setPoolStore s PLATFORM_FEES_KEY v = { s with platform_fees := some v } := by
  simp [setPoolStore]

/-- Writing the creator pool slot only replaces the creator field. -/
theorem setPoolStore_creator (s : TreasuryState) (v : Int) :
    setPoolStore s CREATOR_FEES_KEY v = { s with creator_fees := some v } := by
  simp [setPoolStore, CREATOR_FEES_KEY, PLATFORM_FEES_KEY, LEADERBOARD_FEES_KEY]

/-- The invariant `PoolsOk` is monotone in the budget. -/
theorem PoolsOk_mono {w : World} {D D' : Int} (h : PoolsOk w D) (hle : D ≤ D') :
    PoolsOk w D' :=
  ⟨h.1, h.2.1, h.2.2.1, le_trans h.2.2.2 hle⟩

/-- The deposit budget of a call list is nonnegative. -/
theorem depositBudget_nonneg (calls : List Call) : 0 ≤ depositBudget calls := by
  induction calls with
  | nil => simp [depositBudget]
  | cons cl rest ih =>
    cases cl <;> simp [depositBudget] <;> omega

/-- Each pool value is between 0 and the sum of the three pools. -/
theorem getPool_le_sum (w : World) (key : String)
    (hkey : key = PLATFORM_FEES_KEY ∨ key = LEADERBOARD_FEES_KEY ∨
      key = CREATOR_FEES_KEY)
    (h1 : 0 ≤ get_platform_fees w) (h2 : 0 ≤ get_leaderboard_fees w)
    (h3 : 0 ≤ get_creator_fees w) :
    0 ≤ (getPool w.store key).getD 0 ∧
      (getPool w.store key).getD 0 ≤
        get_platform_fees w + get_leaderboard_fees w + get_creator_fees w := by
  rcases hkey with rfl | rfl | rfl <;>
    simp only [getPool_platform, getPool_leaderboard, getPool_creator,
      get_platform_fees, get_leaderboard_fees, get_creator_fees] at * <;>
    omega

/-- Writing a nonnegative value into one pool slot preserves `PoolsOk` as
long as the new sum of pools stays within the budget. -/
theorem poolsOk_after_set (w : World) (b : Address → Int) (key : String)
    (v D : Int)
    (hkey : key = PLATFORM_FEES_KEY ∨ key = LEADERBOARD_FEES_KEY ∨
      key = CREATOR_FEES_KEY)
    (hv : 0 ≤ v)
    (h1 : 0 ≤ get_platform_fees w) (h2 : 0 ≤ get_leaderboard_fees w)
    (h3 : 0 ≤ get_creator_fees w)
    (hsum : get_platform_fees w + get_leaderboard_fees w + get_creator_fees w -
      (getPool w.store key).getD 0 + v ≤ D) :
    PoolsOk { store := setPoolStore w.store key v, bal := b } D := by
  rcases hkey with rfl | rfl | rfl
  · rw [setPoolStore_platform]
    rw [getPool_platform] at hsum
    unfold PoolsOk get_platform_fees get_leaderboard_fees get_creator_fees at *
    simp only [Option.getD_some] at *
    omega
  · rw [setPoolStore_leaderboard]
    rw [getPool_leaderboard] at hsum
    unfold PoolsOk get_platform_fees get_leaderboard_fees get_creator_fees at *
    simp only [Option.getD_some] at *
    omega
  · rw [setPoolStore_creator]
    rw [getPool_creator] at hsum
    unfold PoolsOk get_platform_fees get_leaderboard_fees get_creator_fees at *
    simp only [Option.getD_some] at *
    omega

/-- An `initialize` call preserves the pool invariant. -/
theorem poolsOk_init (auth : Address → Bool) (c : Address) (w : World)
    (a u f : Address) (D : Int) (hw : PoolsOk w D) (_hD : 0 ≤ D) :
    PoolsOk (execCall auth c w (.init a u f)) D := by
  by_cases hauth : auth a
  · have h1 : initializeTreasury auth w a u f =
        .ok { store := initState a u f, bal := w.bal }
          [.setPool PLATFORM_FEES_KEY 0, .setPool LEADERBOARD_FEES_KEY 0,
           .setPool CREATOR_FEES_KEY 0, .emit (.treasuryInitialized a u f)] := by
      simp [initializeTreasury, initState, hauth]
    simp only [execCall, h1]
    unfold PoolsOk get_platform_fees get_leaderboard_fees get_creator_fees
      initState
    simp only [Option.getD_some]
    omega
  · have h1 : initializeTreasury auth w a u f = .err .authFailed [] := by
      simp [initializeTreasury, hauth]
    simp only [execCall, h1]
    exact hw

/-- A `deposit_fees` call preserves the pool invariant, raising the budget
by the positive part of the deposited amount. -/
theorem poolsOk_deposit (auth : Address → Bool) (c : Address) (w : World)
    (source : Address) (cat : String) (amount : Int) (D : Int)
    (hw : PoolsOk w D) (_hD : 0 ≤ D)
    (hbound : D + max amount 0 < 2 ^ 127) :
    PoolsOk (execCall auth c w (.deposit source cat amount))
      (D + max amount 0) := by
  have hmax : 0 ≤ max amount 0 := le_max_right _ _
  by_cases hle : amount ≤ 0
  · have h1 : deposit_fees c w source cat amount = .err .invalidAmount [] := by
      simp [deposit_fees, hle]
    simp only [execCall, h1]
    exact PoolsOk_mono hw (by omega)
  · cases husdc : w.store.usdc with
    | none =>
      have h1 : deposit_fees c w source cat amount = .err .usdcNotSet [] := by
        simp [deposit_fees, hle, husdc]
      simp only [execCall, h1]
      exact PoolsOk_mono hw (by omega)
    | some u =>
      by_cases hf : xferFails w.bal source amount
      · have h1 : deposit_fees c w source cat amount =
            .err .insufficientBalance [] := by
          simp [deposit_fees, hle, husdc, hf]
        simp only [execCall, h1]
        exact PoolsOk_mono hw (by omega)
      · cases hkey : categoryKey cat with
        | none =>
          have h1 : deposit_fees c w source cat amount =
              .err .invalidCategory [.transfer source c amount] := by
            simp [deposit_fees, hle, husdc, hf, hkey]
          simp only [execCall, h1]
          exact PoolsOk_mono hw (by omega)
        | some key =>
          have hmem := categoryKey_mem hkey
          obtain ⟨h1, h2, h3, h4⟩ := hw
          have hcur := getPool_le_sum w key hmem h1 h2 h3
          have hamtle : amount ≤ max amount 0 := le_max_left _ _
          have hwrap : wrap128 ((getPool w.store key).getD 0 + amount) =
              (getPool w.store key).getD 0 + amount :=
            wrap128_eq_self (by omega) (by omega)
          have hdep : deposit_fees c w source cat amount =
              .ok { store := setPoolStore w.store key
                      ((getPool w.store key).getD 0 + amount),
                    bal := xferBal w.bal source c amount }
                [.transfer source c amount,
                 .setPool key ((getPool w.store key).getD 0 + amount),
                 .emit (.feeDeposited amount)] := by
            simp [deposit_fees, hle, husdc, hf, hkey, hwrap]
          simp only [execCall, hdep]
          exact poolsOk_after_set w _ key _ _ hmem (by omega) h1 h2 h3
            (by omega)

/-- A `distribute_leaderboard` call with a well-shaped share list preserves
the pool invariant without raising the budget. -/
theorem poolsOk_distribute (auth : Address → Bool) (c : Address) (w : World)
    (rs : List (Address × Nat)) (D : Int)
    (hw : PoolsOk w D) (hD : 0 ≤ D)
    (hgood : goodCall (.distribute rs)) (hbound : D < 2 ^ 127) :
    PoolsOk (execCall auth c w (.distribute rs)) D := by
  cases hadm : w.store.admin with
  | none =>
    have h1 : distribute_leaderboard auth c w rs = .err .adminNotSet [] := by
      simp [distribute_leaderboard, hadm]
    simp only [execCall, h1]
    exact hw
  | some a =>
    by_cases hauth : auth a
    case neg =>
      have h1 : distribute_leaderboard auth c w rs = .err .authFailed [] := by
        simp [distribute_leaderboard, hadm, hauth]
      simp only [execCall, h1]
      exact hw
    case pos =>
      by_cases hsum : sharesSumU32 rs ≠ 10000
      · have h1 : distribute_leaderboard auth c w rs =
            .err .invalidShareTotal [] := by
          simp [distribute_leaderboard, hadm, hauth, hsum]
        simp only [execCall, h1]
        exact hw
      · have htrue : (rs.map Prod.snd).sum = 10000 := by
          rcases hgood with h | h
          · exact h
          · exact absurd h hsum
        by_cases hz : get_leaderboard_fees w = 0
        · have h1 : distribute_leaderboard auth c w rs = .ok w [] := by
            simp [distribute_leaderboard, hadm, hauth, hsum, hz]
          simp only [execCall, h1]
          exact hw
        · cases husdc : w.store.usdc with
          | none =>
            have h1 : distribute_leaderboard auth c w rs =
                .err .usdcNotSet [] := by
              simp [distribute_leaderboard, hadm, hauth, hsum, hz, husdc]
            simp only [execCall, h1]
            exact hw
          | some u =>
            obtain ⟨h1, h2, h3, h4⟩ := hw
            have hTpos : 0 < get_leaderboard_fees w :=
              lt_of_le_of_ne h2 (Ne.symm hz)
            have hTD : get_leaderboard_fees w ≤ D := by
              simp only [get_platform_fees, get_leaderboard_fees,
                get_creator_fees] at h1 h2 h3 h4 ⊢
              omega
            have hDamt := distributedAmt_le_total (le_of_lt hTpos) htrue
            have hDamt0 := distributedAmt_nonneg (get_leaderboard_fees w) rs
            have hdone := distLoop_done_amt c (get_leaderboard_fees w) rs
              w.bal 0 le_rfl (le_of_lt hTpos) (by omega)
            cases hloop : distLoop c (get_leaderboard_fees w) w.bal rs 0 with
            | fail tr =>
              have hd : distribute_leaderboard auth c w rs =
                  .err .insufficientBalance tr := by
                simp [distribute_leaderboard, hadm, hauth, hsum, hz, husdc,
                  hloop]
              simp only [execCall, hd]
              exact ⟨h1, h2, h3, h4⟩
            | done b2 d2 tr =>
              rw [hloop] at hdone
              have hd2 : d2 = 0 + distributedAmt (get_leaderboard_fees w) rs :=
                hdone
              rw [zero_add] at hd2
              have hwrap : wrap128 (get_leaderboard_fees w - d2) =
                  get_leaderboard_fees w - d2 :=
                wrap128_eq_self (by omega) (by omega)
              have hd : distribute_leaderboard auth c w rs =
                  .ok { store := setPoolStore w.store LEADERBOARD_FEES_KEY
                          (get_leaderboard_fees w - d2), bal := b2 }
                    (tr ++ [.setPool LEADERBOARD_FEES_KEY
                        (get_leaderboard_fees w - d2),
                      .emit (.leaderboardDistributed (get_leaderboard_fees w)
                        rs.length)]) := by
                simp [distribute_leaderboard, hadm, hauth, hsum, hz, husdc,
                  hloop, hwrap]
              simp only [execCall, hd]
              refine poolsOk_after_set w _ LEADERBOARD_FEES_KEY _ _
                (Or.inr (Or.inl rfl)) (by omega) h1 h2 h3 ?_
              rw [getPool_leaderboard]
              simp only [get_platform_fees, get_leaderboard_fees,
                get_creator_fees] at h1 h2 h3 h4 hTpos hTD ⊢
              omega

/-- The pool invariant is preserved along any call sequence of well-shaped
calls whose total deposit budget keeps every pool within i128 range. -/
theorem execCalls_poolsOk (auth : Address → Bool) (c : Address) :
    ∀ (calls : List Call) (w : World) (D : Int),
      PoolsOk w D → 0 ≤ D → (∀ cl ∈ calls, goodCall cl) →
      D + depositBudget calls < 2 ^ 127 →
      PoolsOk (execCalls auth c w calls) (D + depositBudget calls) := by
  intro calls
  induction calls with
  | nil =>
    intro w D hw _ _ _
    simpa [execCalls, depositBudget] using hw
  | cons cl rest ih =>
    intro w D hw hD hgood hbound
    have hgoodcl : goodCall cl := hgood cl (List.mem_cons_self cl rest)
    have hgoodrest : ∀ x ∈ rest, goodCall x :=
      fun x hx => hgood x (List.mem_cons_of_mem cl hx)
    have hrest0 : 0 ≤ depositBudget rest := depositBudget_nonneg rest
    cases cl with
    | init a u f =>
      have hbud : depositBudget (Call.init a u f :: rest) =
          depositBudget rest := rfl
      rw [hbud] at hbound ⊢
      have hstep := poolsOk_init auth c w a u f D hw hD
      have hrec := ih (execCall auth c w (.init a u f)) D hstep hD hgoodrest
        hbound
      simpa [execCalls, List.foldl_cons] using hrec
    | deposit s cat amt =>
      have hbud : depositBudget (Call.deposit s cat amt :: rest) =
          max amt 0 + depositBudget rest := rfl
      rw [hbud] at hbound ⊢
      have hmax : 0 ≤ max amt 0 := le_max_right _ _
      have hstep := poolsOk_deposit auth c w s cat amt D hw hD (by omega)
      have hrec := ih (execCall auth c w (.deposit s cat amt))
        (D + max amt 0) hstep (by omega) hgoodrest (by omega)
      have heq : D + (max amt 0 + depositBudget rest) =
          (D + max amt 0) + depositBudget rest := by ring
      rw [heq]
      simpa [execCalls, List.foldl_cons] using hrec
    | distribute rs =>
      have hbud : depositBudget (Call.distribute rs :: rest) =
          depositBudget rest := rfl
      rw [hbud] at hbound ⊢
      have hstep := poolsOk_distribute auth c w rs D hw hD hgoodcl (by omega)
      have hrec := ih (execCall auth c w (.distribute rs)) D hstep hD
        hgoodrest hbound
      simpa [execCalls, List.foldl_cons] using hrec

/-- C4 amended: starting from a state with all pools reading 0 (the
initialized state), every pool value stays ≥ 0 under any sequence of
initialize / deposit_fees / distribute_leaderboard calls, PROVIDED (a) every
distribution's share list either truly sums to 10000 or is rejected by the
wrapped-u32 validation, and (b) the total of deposited amounts stays below
2 ^ 127 (no i128 pool overflow). -/
theorem pools_nonneg_amended (auth : Address → Bool) (c : Address) (w : World)
    (calls : List Call)
    (hp : get_platform_fees w = 0) (hl : get_leaderboard_fees w = 0)
    (hcr : get_creator_fees w = 0)
    (hgood : ∀ cl ∈ calls, goodCall cl)
    (hbudget : depositBudget calls < 2 ^ 127) :
    0 ≤ get_platform_fees (execCalls auth c w calls) ∧
      0 ≤ get_leaderboard_fees (execCalls auth c w calls) ∧
      0 ≤ get_creator_fees (execCalls auth c w calls) := by
  have h0 : PoolsOk w 0 := by
    unfold PoolsOk
    omega
  have h := execCalls_poolsOk auth c calls w 0 h0 le_rfl hgood
    (by omega)
  rw [zero_add] at h
  exact ⟨h.1, h.2.1, h.2.2.1⟩

/-- C4 amended witness: a concrete initialize / deposit / distribute
sequence keeps all pools nonnegative. -/
theorem pools_nonneg_amended_witness :
    (get_platform_fees wStart = 0 ∧ get_leaderboard_fees wStart = 0 ∧
      get_creator_fees wStart = 0 ∧
      (∀ cl ∈ ([.init 1 2 3, .deposit 4 "leaderboard" 10,
        .distribute [(5, 5000), (6, 5000)]] : List Call), goodCall cl) ∧
      depositBudget [.init 1 2 3, .deposit 4 "leaderboard" 10,
        .distribute [(5, 5000), (6, 5000)]] < 2 ^ 127) ∧
      (0 ≤ get_platform_fees (execCalls authAll 0 wStart
          [.init 1 2 3, .deposit 4 "leaderboard" 10,
           .distribute [(5, 5000), (6, 5000)]]) ∧
        0 ≤ get_leaderboard_fees (execCalls authAll 0 wStart
          [.init 1 2 3, .deposit 4 "leaderboard" 10,
           .distribute [(5, 5000), (6, 5000)]]) ∧
        0 ≤ get_creator_fees (execCalls authAll 0 wStart
          [.init 1 2 3, .deposit 4 "leaderboard" 10,
           .distribute [(5, 5000), (6, 5000)]])) := by
  have hgood : ∀ cl ∈ ([.init 1 2 3, .deposit 4 "leaderboard" 10,
      .distribute [(5, 5000), (6, 5000)]] : List Call), goodCall cl := by
    intro cl hcl
    simp only [List.mem_cons, List.not_mem_nil, or_false] at hcl
    rcases hcl with rfl | rfl | rfl
    · exact trivial
    · exact trivial
    · exact Or.inl (by decide)
  refine ⟨⟨rfl, rfl, rfl, hgood, by norm_num [depositBudget]⟩, ?_⟩
  exact pools_nonneg_amended authAll 0 wStart _ rfl rfl rfl hgood
    (by norm_num [depositBudget])
